import Mathlib

/-!
Verification of the treelite core: builder, frozen model, GTIL prediction.

Shallow embedding of the treelite model-builder and GTIL prediction layer.
The C API dispatch (`src/c_api/gtil.cc`) is embedded directly from the source.
The implementations behind the declarations in `include/treelite/frontend.h`
(TreeBuilder/ModelBuilder/CommitModel) and the GTIL engine
(`treelite::gtil::Predict`, `GetOutputShape`, `Configuration`) are not part of
the source slice, so they are modelled from the specification, as noted on each
definition.  Numeric payloads (thresholds, leaf outputs, feature values) are
modelled as exact rationals.
-/

set_option maxHeartbeats 1000000

/-- Comparison operators usable in numerical test nodes
(`treelite::Operator`; the spec lists the closed set `<, <=, ==, >, >=, !=`). -/
inductive Operator where
  | lt
  | le
  | eq
  | gt
  | ge
  | ne
deriving DecidableEq, Repr

/-- Modelled from the spec: the state of a single keyed node inside a
`TreeBuilder` (the `TreeBuilderImpl` behind `frontend.h` is not in the source
slice).  A node is `unset` right after `CreateNode` and acquires exactly one
kind via one of the four setter calls. -/
inductive NodeState where
  | unset
  | leaf (value : ℚ)
  | leafVector (values : List ℚ)
  | numericalTest (feature_id : Nat) (op : Operator) (threshold : ℚ)
      (default_left : Bool) (left_child : Int) (right_child : Int)
  | categoricalTest (feature_id : Nat) (left_categories : List Nat)
      (default_left : Bool) (left_child : Int) (right_child : Int)
deriving DecidableEq, Repr

/-- Association list from external integer node keys to node states. -/
abbrev NodeMap := List (Int × NodeState)

/-- Look up the state of the node with external key `k`. -/
def lookupNode (nodes : NodeMap) (k : Int) : Option NodeState :=
  match nodes.find? (fun p => p.1 = k) with
  | some p => some p.2
  | none => none

/-- Whether a node with key `k` has been declared in the tree. -/
def hasNode (nodes : NodeMap) (k : Int) : Bool :=
  (lookupNode nodes k).isSome

/-- Modelled from the spec: the mutable state of one `TreeBuilder`
(`frontend.h` declares the class; its implementation is absent).  It owns a
mapping from node key to node state plus the declared root, if any. -/
structure TreeBuilderState where
  nodes : NodeMap
  root : Option Int
deriving DecidableEq, Repr

/-- A freshly constructed `TreeBuilder`. -/
def emptyTree : TreeBuilderState := ⟨[], none⟩

/-- Modelled from the spec: `TreeBuilder::CreateNode` — fails if the key
already exists. -/
def CreateNode (tb : TreeBuilderState) (k : Int) : Except String TreeBuilderState :=
  if hasNode tb.nodes k then .error ("CreateNode: nodes with duplicate keys are not allowed")
  else .ok { tb with nodes := tb.nodes ++ [(k, NodeState.unset)] }

/-- Modelled from the spec: `TreeBuilder::DeleteNode` — fails if the key does
not exist; dangling-child detection is deferred to commit-time validation. -/
def DeleteNode (tb : TreeBuilderState) (k : Int) : Except String TreeBuilderState :=
  if hasNode tb.nodes k then
    .ok { tb with nodes := tb.nodes.filter (fun p => p.1 != k) }
  else .error ("DeleteNode: no node found with the given key")

/-- Modelled from the spec: `TreeBuilder::SetRootNode` — fails if the key does
not exist; the root may be reassigned any number of times before commit. -/
def SetRootNode (tb : TreeBuilderState) (k : Int) : Except String TreeBuilderState :=
  if hasNode tb.nodes k then .ok { tb with root := some k }
  else .error ("SetRootNode: no node found with the given key")

/-- Replace the state of the node keyed `k` (the key set is unchanged). -/
def replaceNode (nodes : NodeMap) (k : Int) (s : NodeState) : NodeMap :=
  nodes.map (fun p => if p.1 = k then (k, s) else p)

/-- Modelled from the spec: the shared state-transition core of the four node
setters — the node must exist and be `unset`, and every referenced child key
must exist at call time; otherwise the call fails and the tree is unchanged. -/
def setNodeKind (tb : TreeBuilderState) (k : Int) (children : List Int) (s : NodeState) :
    Except String TreeBuilderState :=
  match lookupNode tb.nodes k with
  | none => .error ("SetNode: no node found with the given key")
  | some NodeState.unset =>
      if children.all (fun c => hasNode tb.nodes c) then
        .ok { tb with nodes := replaceNode tb.nodes k s }
      else .error ("SetNode: child node not found")
  | some _ => .error ("SetNode: cannot modify a node that has already been given a kind")

/-- Modelled from the spec: `TreeBuilder::SetNumericalTestNode`. -/
def SetNumericalTestNode (tb : TreeBuilderState) (k : Int) (feature_id : Nat) (op : Operator)
    (threshold : ℚ) (default_left : Bool) (lc rc : Int) : Except String TreeBuilderState :=
  setNodeKind tb k [lc, rc] (NodeState.numericalTest feature_id op threshold default_left lc rc)

/-- Modelled from the spec: `TreeBuilder::SetCategoricalTestNode`. -/
def SetCategoricalTestNode (tb : TreeBuilderState) (k : Int) (feature_id : Nat)
    (left_categories : List Nat) (default_left : Bool) (lc rc : Int) :
    Except String TreeBuilderState :=
  setNodeKind tb k [lc, rc]
    (NodeState.categoricalTest feature_id left_categories default_left lc rc)

/-- Modelled from the spec: `TreeBuilder::SetLeafNode`. -/
def SetLeafNode (tb : TreeBuilderState) (k : Int) (leaf_value : ℚ) :
    Except String TreeBuilderState :=
  setNodeKind tb k [] (NodeState.leaf leaf_value)

/-- Modelled from the spec: `TreeBuilder::SetLeafVectorNode`. -/
def SetLeafVectorNode (tb : TreeBuilderState) (k : Int) (leaf_vector : List ℚ) :
    Except String TreeBuilderState :=
  setNodeKind tb k [] (NodeState.leafVector leaf_vector)

/-- A node of a committed (frozen) tree: keys are renumbered to compact
0-based indices, so child links are indices into the node array. -/
inductive CNode where
  | leaf (value : ℚ)
  | leafVector (values : List ℚ)
  | numericalTest (feature_id : Nat) (op : Operator) (threshold : ℚ)
      (default_left : Bool) (left_child : Nat) (right_child : Nat)
  | categoricalTest (feature_id : Nat) (left_categories : List Nat)
      (default_left : Bool) (left_child : Nat) (right_child : Nat)
deriving DecidableEq, Repr

/-- A committed tree: 0-indexed array of nodes with an explicit root index. -/
structure CTree where
  root : Nat
  nodes : List CNode
deriving DecidableEq, Repr

/-- Modelled from the spec: the immutable `treelite::Model` produced by
`ModelBuilder::CommitModel` — ordered trees plus global metadata. -/
structure Model where
  num_feature : Nat
  num_class : Nat
  average_tree_output : Bool
  trees : List CTree
deriving DecidableEq, Repr

/-- Modelled from the spec: the mutable state of a `ModelBuilder` — ordered
collection of tree builders plus the ensemble-wide metadata fixed at
construction. -/
structure ModelBuilderState where
  num_feature : Nat
  num_class : Nat
  average_tree_output : Bool
  trees : List TreeBuilderState
deriving DecidableEq, Repr

/-- A caller-side handle to a `TreeBuilder`.  `tree = none` models the
dangling handle left behind after its tree has been moved into a
`ModelBuilder` by `InsertTree`. -/
structure TreeBuilderHandle where
  tree : Option TreeBuilderState
deriving DecidableEq, Repr

/-- Whether the handle can still be used to edit its tree. -/
def TreeBuilderHandle.usable (h : TreeBuilderHandle) : Bool := h.tree.isSome

/-- Insert `a` before position `i` of `l` (append when `i ≥ l.length`). -/
def insertAt : List α → Nat → α → List α
  | l, 0, a => a :: l
  | [], _ + 1, a => [a]
  | x :: xs, i + 1, a => x :: insertAt xs i a

/-- Modelled from the spec: `ModelBuilder::InsertTree` — moves the handle's
tree into the ensemble before position `index` (`-1` appends at the end);
fails when the handle is dangling or `index` is outside `[0, n]`.  On success
it returns the updated builder, the now-dangling handle, and the position of
the new tree. -/
def InsertTree (mb : ModelBuilderState) (h : TreeBuilderHandle) (index : Int) :
    Except String (ModelBuilderState × TreeBuilderHandle × Nat) :=
  match h.tree with
  | none => .error ("InsertTree: the tree builder is not usable")
  | some tb =>
      if index = -1 then
        .ok ({ mb with trees := mb.trees ++ [tb] }, ⟨none⟩, mb.trees.length)
      else if 0 ≤ index ∧ index ≤ (mb.trees.length : Int) then
        .ok ({ mb with trees := insertAt mb.trees index.toNat tb }, ⟨none⟩, index.toNat)
      else .error ("InsertTree: index out of bounds")

/-- Modelled from the spec: `ModelBuilder::GetTree` — re-acquires a fresh,
usable handle to the tree at `index`; out-of-range error otherwise. -/
def GetTree (mb : ModelBuilderState) (index : Nat) : Except String TreeBuilderHandle :=
  match mb.trees.get? index with
  | some tb => .ok ⟨some tb⟩
  | none => .error ("GetTree: index out of bounds")

/-- Modelled from the spec: `ModelBuilder::DeleteTree`. -/
def DeleteTree (mb : ModelBuilderState) (index : Nat) : Except String ModelBuilderState :=
  if index < mb.trees.length then
    .ok { mb with trees := mb.trees.eraseIdx index }
  else .error ("DeleteTree: index out of bounds")

/-- Child keys referenced by a node state (empty for leaves and `unset`). -/
def childKeys : NodeState → List Int
  | NodeState.numericalTest _ _ _ _ l r => [l, r]
  | NodeState.categoricalTest _ _ _ l r => [l, r]
  | _ => []

/-- Fuel-bounded search for a directed path of exactly `n` child edges
starting at key `k`.  In a tree with `m` declared nodes, a path of `m` edges
exists from the root iff a cycle is reachable from the root. -/
def pathOfLen (nodes : NodeMap) : Nat → Int → Bool
  | 0, _ => true
  | n + 1, k =>
      match lookupNode nodes k with
      | none => false
      | some s => (childKeys s).any (pathOfLen nodes n)

/-- Fuel-bounded breadth-first search collecting the keys reachable from the
frontier.  Returns `none` when a referenced child key is not declared in the
tree (a dangling child) or fuel runs out. -/
def reach (nodes : NodeMap) : Nat → List Int → List Int → Option (List Int)
  | _, visited, [] => some visited
  | 0, _, _ :: _ => none
  | fuel + 1, visited, k :: rest =>
      if visited.contains k then reach nodes fuel visited rest
      else
        match lookupNode nodes k with
        | none => none
        | some s => reach nodes fuel (k :: visited) (rest ++ childKeys s)

/-- Keys reachable from the declared root (`none` when there is no root, a
dangling child is hit, or the search exceeds its fuel). -/
def reachableKeys (tb : TreeBuilderState) : Option (List Int) :=
  match tb.root with
  | none => none
  | some r => reach tb.nodes (2 * tb.nodes.length + 2) [] [r]

/-- Per-node commit-time checks: no `unset` survivor, feature ids inside
`[0, num_feature)`, and leaf-vector length equal to `num_class`. -/
def nodeOk (nf nc : Nat) : NodeState → Bool
  | NodeState.unset => false
  | NodeState.leaf _ => true
  | NodeState.leafVector vs => vs.length = nc
  | NodeState.numericalTest fid _ _ _ _ _ => fid < nf
  | NodeState.categoricalTest fid _ _ _ _ => fid < nf

/-- Modelled from the spec: commit-time structural validation of one tree —
exactly one root exists, the graph reachable from it has no dangling child
keys and no cycle, every declared node is reachable from the root, and every
declared node passes the per-node checks. -/
def validTree (tb : TreeBuilderState) (nf nc : Nat) : Bool :=
  match tb.root with
  | none => false
  | some r =>
      match reach tb.nodes (2 * tb.nodes.length + 2) [] [r] with
      | none => false
      | some visited =>
          !(pathOfLen tb.nodes tb.nodes.length r)
            && tb.nodes.all (fun p => visited.contains p.1)
            && tb.nodes.all (fun p => nodeOk nf nc p.2)

/-- The compact index assigned to external key `k` at commit time: the
position of `k` in the declaration order of the tree's node map. -/
def keyIndex (nodes : NodeMap) (k : Int) : Option Nat :=
  nodes.findIdx? (fun p => p.1 = k)

/-- Renumber one node, translating child keys through `keyIndex`; fails on an
`unset` node or a child key absent from the map. -/
def convertNode (nodes : NodeMap) : NodeState → Option CNode
  | NodeState.unset => none
  | NodeState.leaf v => some (CNode.leaf v)
  | NodeState.leafVector vs => some (CNode.leafVector vs)
  | NodeState.numericalTest fid op th dl l r =>
      match keyIndex nodes l, keyIndex nodes r with
      | some li, some ri => some (CNode.numericalTest fid op th dl li ri)
      | _, _ => none
  | NodeState.categoricalTest fid cats dl l r =>
      match keyIndex nodes l, keyIndex nodes r with
      | some li, some ri => some (CNode.categoricalTest fid cats dl li ri)
      | _, _ => none

/-- `Option`-valued element-wise traversal (explicit recursion so that
positional lemmas can be proved by structural induction). -/
def mapOption (f : α → Option β) : List α → Option (List β)
  | [] => some []
  | a :: as =>
      match f a, mapOption f as with
      | some b, some bs => some (b :: bs)
      | _, _ => none

/-- `Except`-valued element-wise traversal, stopping at the first error. -/
def mapResult (f : α → Except String β) : List α → Except String (List β)
  | [] => .ok []
  | a :: as =>
      match f a, mapResult f as with
      | .ok b, .ok bs => .ok (b :: bs)
      | .error e, _ => .error e
      | _, .error e => .error e

/-- The commit-time renumbering pass: map the root and every node through
`keyIndex`, preserving declaration order. -/
def renumberTree (tb : TreeBuilderState) : Option CTree :=
  match tb.root with
  | none => none
  | some r =>
      match keyIndex tb.nodes r, mapOption (fun p => convertNode tb.nodes p.2) tb.nodes with
      | some ri, some ns => some ⟨ri, ns⟩
      | _, _ => none

/-- Modelled from the spec: commit of a single tree — validate, then
renumber node keys to a compact 0-based index space. -/
def commitTree (tb : TreeBuilderState) (nf nc : Nat) : Except String CTree :=
  if validTree tb nf nc then
    match renumberTree tb with
    | some ct => .ok ct
    | none => .error ("CommitModel: malformed tree")
  else .error ("CommitModel: tree validation failed")

/-- Modelled from the spec: `ModelBuilder::CommitModel` — validates every
contained tree and freezes the ensemble; any validation failure aborts the
whole commit and no model is produced. -/
def CommitModel (mb : ModelBuilderState) : Except String Model :=
  match mapResult (fun tb => commitTree tb mb.num_feature mb.num_class) mb.trees with
  | .ok ts =>
      .ok { num_feature := mb.num_feature, num_class := mb.num_class,
            average_tree_output := mb.average_tree_output, trees := ts }
  | .error e => .error e

/-- One input row: maps a feature id to its value, `none` when the value is
missing (absent in the sparse representation, or flagged missing in the dense
one). -/
abbrev Row := Nat → Option ℚ

/-- Evaluate `feature_value OP threshold` for a numerical test. -/
def evalOp (op : Operator) (v t : ℚ) : Bool :=
  match op with
  | Operator.lt => v < t
  | Operator.le => v ≤ t
  | Operator.eq => v = t
  | Operator.gt => t < v
  | Operator.ge => t ≤ v
  | Operator.ne => v ≠ t

/-- Truncate a rational towards zero (the "truncated-to-integer" feature
value used by categorical tests). -/
def ratTrunc (q : ℚ) : Int := q.num.tdiv q.den

/-- Modelled from the spec: the branch taken at a `CategoricalTest` node —
`true` means the left child.  A missing value branches per `default_left`;
otherwise the truncated feature value is tested for membership in
`left_categories` (a value matching no category goes right). -/
def catRoute (left_categories : List Nat) (default_left : Bool) (fv : Option ℚ) : Bool :=
  match fv with
  | none => default_left
  | some v => left_categories.any (fun c => (c : Int) = ratTrunc v)

/-- Modelled from the spec: the branch taken at a `NumericalTest` node. -/
def numRoute (op : Operator) (threshold : ℚ) (default_left : Bool) (fv : Option ℚ) : Bool :=
  match fv with
  | none => default_left
  | some v => evalOp op v threshold

/-- Modelled from the spec: fuel-bounded traversal of one committed tree from
node index `idx`, returning the reached leaf's contribution (a scalar leaf
contributes a singleton vector).  `none` on malformed trees or exhausted
fuel; the fuel `nodes.length + 1` used by `evalTree` suffices for every
committed (acyclic) tree. -/
def evalTreeFrom (nodes : List CNode) (row : Row) : Nat → Nat → Option (List ℚ)
  | 0, _ => none
  | fuel + 1, idx =>
      match nodes.get? idx with
      | none => none
      | some (CNode.leaf v) => some [v]
      | some (CNode.leafVector vs) => some vs
      | some (CNode.numericalTest fid op th dl lc rc) =>
          evalTreeFrom nodes row fuel (if numRoute op th dl (row fid) then lc else rc)
      | some (CNode.categoricalTest fid cats dl lc rc) =>
          evalTreeFrom nodes row fuel (if catRoute cats dl (row fid) then lc else rc)

/-- Traverse one committed tree from its root for one row. -/
def evalTree (t : CTree) (row : Row) : Option (List ℚ) :=
  evalTreeFrom t.nodes row (t.nodes.length + 1) t.root

/-- Component-wise sum of per-tree contribution vectors, starting from the
zero vector of length `num_class`. -/
def vecSum (nc : Nat) (cs : List (List ℚ)) : List ℚ :=
  cs.foldl (fun acc c => acc.zipWith (· + ·) c) (List.replicate nc 0)

/-- Modelled from the spec: the per-row GTIL prediction — walk every tree in
ensemble insertion order, then aggregate the contributions per class
component: a plain sum when `average_tree_output = false`, the arithmetic
mean when `true`. -/
def predictRow (m : Model) (row : Row) : Option (List ℚ) :=
  match mapOption (fun t => evalTree t row) m.trees with
  | none => none
  | some cs =>
      let s := vecSum m.num_class cs
      some (if m.average_tree_output then s.map (· / (m.trees.length : ℚ)) else s)

/-- Modelled from the spec: `treelite::gtil::Predict` on a dense batch —
row-by-row, each row independent of the others. -/
def predictBatch (m : Model) (rows : List Row) : List (Option (List ℚ)) :=
  rows.map (predictRow m)

/-- A CSR sparse matrix: values, their column indices, and row pointers. -/
structure CSRMatrix where
  data : List ℚ
  col_ind : List Nat
  row_ptr : List Nat
deriving Repr

/-- The row-accessor view of a CSR row: feature `f` is present iff some
position in `[row_ptr i, row_ptr (i+1))` carries column index `f`. -/
def csrRow (x : CSRMatrix) (i : Nat) : Row := fun f =>
  let lo := x.row_ptr.getD i 0
  let hi := x.row_ptr.getD (i + 1) 0
  (List.range (hi - lo)).findSome? (fun k =>
    match x.col_ind.get? (lo + k) with
    | some cf => if cf = f then x.data.get? (lo + k) else none
    | none => none)

/-- Modelled from the spec: `treelite::gtil::PredictSparse` — identical
per-row traversal, reading each row through the CSR view. -/
def predictSparseBatch (m : Model) (x : CSRMatrix) (num_row : Nat) : List (Option (List ℚ)) :=
  predictBatch m ((List.range num_row).map (csrRow x))

/-- The prediction kinds recognised by the GTIL configuration. -/
inductive PredKind where
  | predictDefault
  | leafIndex
  | shapContrib
deriving DecidableEq, Repr

/-- Modelled from the spec: `treelite::gtil::Configuration` — parsed,
validated execution options, immutable once parsed. -/
structure Configuration where
  nthread : Int
  pred_transform : Bool
  pred_kind : PredKind
deriving DecidableEq, Repr

/-- Number of output cells described by a shape. -/
def shapeCount (shape : List Nat) : Nat := shape.foldl (· * ·) 1

/-- Modelled from the spec: `treelite::gtil::GetOutputShape` — derives the
output-buffer shape from model metadata, the configuration, and `num_row`
only (it takes no input data at all): leaf-index prediction yields
`[num_row, num_tree]`, ordinary prediction `[num_row, num_class]`. -/
def GetOutputShape (m : Model) (num_row : Nat) (c : Configuration) : List Nat :=
  match c.pred_kind with
  | PredKind.leafIndex => [num_row, m.trees.length]
  | _ => [num_row, m.num_class]

/-- The element types accepted at the GTIL C boundary (`gtil.cc` dispatches
on the strings "float32" and "float64"). -/
inductive ElemType where
  | float32
  | float64
deriving DecidableEq, Repr

/-- The `API_BEGIN`/`API_END` wrapper of the C API: an internal error is
captured and surfaces as the nonzero return code `-1` with the out-parameter
left unwritten (`none`); success returns `0` and writes the out-parameter. -/
def apiWrap (body : Except String α) : Int × Option α :=
  match body with
  | .ok a => (0, some a)
  | .error _ => (-1, none)

/-- `TreeliteGTILParseConfig` from `gtil.cc`: builds a configuration from the
JSON string and hands it out; the parser itself is not in the source slice,
so it is passed as a parameter. -/
def TreeliteGTILParseConfig (parse : String → Except String Configuration)
    (config_json : String) : Int × Option Configuration :=
  apiWrap (parse config_json)

/-- `TreeliteGTILDeleteConfig` from `gtil.cc`: deletion never fails. -/
def TreeliteGTILDeleteConfig : Int × Option Unit :=
  apiWrap (.ok ())

/-- `TreeliteGTILGetOutputShape` from `gtil.cc`: returns the shape data and
its number of dimensions through the two out-parameters. -/
def TreeliteGTILGetOutputShape (m : Model) (num_row : Nat) (c : Configuration) :
    Int × Option (List Nat × Nat) :=
  apiWrap (do
    let shape := GetOutputShape m num_row c
    .ok (shape, shape.length))

/-- `TreeliteGTILPredict` from `gtil.cc`: dispatch on the element-type tag —
"float32" and "float64" call the engine specialised to that element type
(the `ElemType` component records which specialisation ran); any other tag
raises a fatal error before any prediction is performed. -/
def TreeliteGTILPredict (m : Model) (input : List Row) (input_type : String)
    (_config : Configuration) : Int × Option (ElemType × List (Option (List ℚ))) :=
  apiWrap (
    if input_type = "float32" then .ok (ElemType.float32, predictBatch m input)
    else if input_type = "float64" then .ok (ElemType.float64, predictBatch m input)
    else .error ("Unexpected type spec: " ++ input_type))

/-- `TreeliteGTILPredictSparse` from `gtil.cc`: same dispatch for the CSR
entry point. -/
def TreeliteGTILPredictSparse (m : Model) (x : CSRMatrix) (input_type : String)
    (num_row : Nat) (_config : Configuration) :
    Int × Option (ElemType × List (Option (List ℚ))) :=
  apiWrap (
    if input_type = "float32" then .ok (ElemType.float32, predictSparseBatch m x num_row)
    else if input_type = "float64" then .ok (ElemType.float64, predictSparseBatch m x num_row)
    else .error ("Unexpected type spec: " ++ input_type))

/-- An index with a `some` entry is inside the list. -/
theorem lt_length_of_get?_some {l : List α} {i : Nat} {a : α} (h : l.get? i = some a) :
    i < l.length := by
  by_contra hge
  rw [List.get?_eq_none.mpr (Nat.le_of_not_lt hge)] at h
  exact Option.noConfusion h

/-- A worker thread's work list: write the deterministic per-row value `v i`
into cell `i` of the shared output buffer, for each index of the chunk. -/
def writeCells (v : Nat → α) (buf : List (Option α)) (idxs : List Nat) : List (Option α) :=
  idxs.foldl (fun b i => b.set i (some (v i))) buf

theorem writeCells_cons (v : Nat → α) (buf : List (Option α)) (i : Nat) (is : List Nat) :
    writeCells v buf (i :: is) = writeCells v (buf.set i (some (v i))) is := rfl

theorem writeCells_length (v : Nat → α) (idxs : List Nat) (buf : List (Option α)) :
    (writeCells v buf idxs).length = buf.length := by
  induction idxs generalizing buf with
  | nil => rfl
  | cons i is ih => rw [writeCells_cons, ih, List.length_set]

theorem writeCells_keep (v : Nat → α) (idxs : List Nat) (buf : List (Option α)) (i : Nat)
    (h : buf.get? i = some (some (v i))) :
    (writeCells v buf idxs).get? i = some (some (v i)) := by
  induction idxs generalizing buf with
  | nil => exact h
  | cons j js ih =>
      rw [writeCells_cons]
      apply ih
      by_cases hji : j = i
      · subst hji
        exact List.get?_set_eq_of_lt (some (v j)) (lt_length_of_get?_some h)
      · rw [List.get?_set_ne (some (v j)) buf hji]
        exact h

theorem writeCells_write (v : Nat → α) (idxs : List Nat) (buf : List (Option α)) (i : Nat)
    (hi : i < buf.length) (hmem : i ∈ idxs) :
    (writeCells v buf idxs).get? i = some (some (v i)) := by
  induction idxs generalizing buf with
  | nil => cases hmem
  | cons j js ih =>
      rw [writeCells_cons]
      by_cases hij : i ∈ js
      · exact ih (buf.set j (some (v j))) (by rw [List.length_set]; exact hi) hij
      · have hji : j = i := by
          rcases List.mem_cons.mp hmem with h1 | h2
          · exact h1.symm
          · exact absurd h2 hij
        subst hji
        apply writeCells_keep
        exact List.get?_set_eq_of_lt (some (v j)) hi

/-- Execute a whole schedule: each chunk is one worker's list of row indices;
chunks are processed in the given order. -/
def runCells (v : Nat → α) (buf : List (Option α)) (sched : List (List Nat)) :
    List (Option α) :=
  sched.foldl (writeCells v) buf

theorem runCells_cons (v : Nat → α) (buf : List (Option α)) (c : List Nat)
    (cs : List (List Nat)) :
    runCells v buf (c :: cs) = runCells v (writeCells v buf c) cs := rfl

theorem runCells_length (v : Nat → α) (sched : List (List Nat)) (buf : List (Option α)) :
    (runCells v buf sched).length = buf.length := by
  induction sched generalizing buf with
  | nil => rfl
  | cons c cs ih => rw [runCells_cons, ih, writeCells_length]

theorem runCells_keep (v : Nat → α) (sched : List (List Nat)) (buf : List (Option α))
    (i : Nat) (h : buf.get? i = some (some (v i))) :
    (runCells v buf sched).get? i = some (some (v i)) := by
  induction sched generalizing buf with
  | nil => exact h
  | cons c cs ih => rw [runCells_cons]; exact ih _ (writeCells_keep v c buf i h)

theorem runCells_write (v : Nat → α) (sched : List (List Nat)) (buf : List (Option α))
    (i : Nat) (hi : i < buf.length) (hc : ∃ c ∈ sched, i ∈ c) :
    (runCells v buf sched).get? i = some (some (v i)) := by
  induction sched generalizing buf with
  | nil => obtain ⟨c, hc1, _⟩ := hc; cases hc1
  | cons c cs ih =>
      rw [runCells_cons]
      obtain ⟨d, hd, hid⟩ := hc
      rcases List.mem_cons.mp hd with rfl | hd2
      · exact runCells_keep v cs _ i (writeCells_write v d buf i hi hid)
      · exact ih _ (by rw [writeCells_length]; exact hi) ⟨d, hd2, hid⟩

theorem runCells_complete (v : Nat → α) (n : Nat) (sched : List (List Nat))
    (hcov : ∀ i, i < n → ∃ c ∈ sched, i ∈ c) :
    runCells v (List.replicate n none) sched =
      (List.range n).map (fun i => some (v i)) := by
  apply List.ext_get?
  intro i
  by_cases hi : i < n
  · rw [runCells_write v sched _ i (by rw [List.length_replicate]; exact hi) (hcov i hi)]
    rw [List.get?_map, List.get?_range hi]
    rfl
  · have h1 : (runCells v (List.replicate n none) sched).get? i = none := by
      rw [List.get?_eq_none, runCells_length, List.length_replicate]
      omega
    have h2 : ((List.range n).map fun j => some (v j)).get? i = none := by
      rw [List.get?_eq_none, List.length_map, List.length_range]
      omega
    rw [h1, h2]

/-- Mapping a list equals mapping its index range through `getD`. -/
theorem map_eq_range_map_getD (g : α → β) (d : α) (l : List α) :
    l.map g = (List.range l.length).map (fun i => g (l.getD i d)) := by
  apply List.ext_get?
  intro i
  rw [List.get?_map, List.get?_map]
  by_cases hi : i < l.length
  · rw [List.get?_range hi]
    cases h : l.get? i with
    | none => exact absurd (List.get?_eq_none.mp h) (by omega)
    | some a =>
        have hd : l.getD i d = a := by
          rw [List.getD_eq_getElem?_getD, ← List.get?_eq_getElem?, h]
          rfl
        show some (g a) = some (g (l.getD i d))
        rw [hd]
  · have h1 : l.get? i = none := List.get?_eq_none.mpr (by omega)
    have h2 : (List.range l.length).get? i = none := by
      rw [List.get?_eq_none, List.length_range]
      omega
    rw [h1, h2]
    rfl

/-- Positional characterisation of a successful `mapOption` run. -/
theorem mapOption_get? (f : α → Option β) (l : List α) (l2 : List β)
    (h : mapOption f l = some l2) :
    l2.length = l.length ∧
      ∀ i a, l.get? i = some a → ∃ b, l2.get? i = some b ∧ f a = some b := by
  induction l generalizing l2 with
  | nil =>
      simp only [mapOption, Option.some.injEq] at h
      subst h
      exact ⟨rfl, fun i a ha => by cases i <;> exact Option.noConfusion ha⟩
  | cons x xs ih =>
      simp only [mapOption] at h
      cases hfx : f x with
      | none => rw [hfx] at h; exact Option.noConfusion h
      | some b =>
          cases hmx : mapOption f xs with
          | none => rw [hfx, hmx] at h; exact Option.noConfusion h
          | some bs =>
              rw [hfx, hmx] at h
              simp only [Option.some.injEq] at h
              subst h
              obtain ⟨ihlen, ihget⟩ := ih bs hmx
              refine ⟨by simp [ihlen], ?_⟩
              intro i a ha
              cases i with
              | zero =>
                  simp only [List.get?_cons_zero, Option.some.injEq] at ha
                  subst ha
                  exact ⟨b, rfl, hfx⟩
              | succ j =>
                  simp only [List.get?_cons_succ] at ha ⊢
                  exact ihget j a ha

/-- Positional characterisation of a successful `mapResult` run. -/
theorem mapResult_get? (f : α → Except String β) (l : List α) (l2 : List β)
    (h : mapResult f l = .ok l2) :
    l2.length = l.length ∧
      ∀ i a, l.get? i = some a → ∃ b, l2.get? i = some b ∧ f a = .ok b := by
  induction l generalizing l2 with
  | nil =>
      simp only [mapResult, Except.ok.injEq] at h
      subst h
      exact ⟨rfl, fun i a ha => by cases i <;> exact Option.noConfusion ha⟩
  | cons x xs ih =>
      simp only [mapResult] at h
      cases hfx : f x with
      | error e =>
          rw [hfx] at h
          cases hmx : mapResult f xs <;> rw [hmx] at h <;> exact Except.noConfusion h
      | ok b =>
          cases hmx : mapResult f xs with
          | error e => rw [hfx, hmx] at h; exact Except.noConfusion h
          | ok bs =>
              rw [hfx, hmx] at h
              simp only [Except.ok.injEq] at h
              subst h
              obtain ⟨ihlen, ihget⟩ := ih bs hmx
              refine ⟨by simp [ihlen], ?_⟩
              intro i a ha
              cases i with
              | zero =>
                  simp only [List.get?_cons_zero, Option.some.injEq] at ha
                  subst ha
                  exact ⟨b, rfl, hfx⟩
              | succ j =>
                  simp only [List.get?_cons_succ] at ha ⊢
                  exact ihget j a ha

/-- `mapResult` fails whenever any element fails. -/
theorem mapResult_error_of_mem (f : α → Except String β) (l : List α) (a : α)
    (ha : a ∈ l) (e : String) (hf : f a = .error e) :
    ∃ msg, mapResult f l = .error msg := by
  induction l with
  | nil => cases ha
  | cons x xs ih =>
      rcases List.mem_cons.mp ha with rfl | hxs
      · refine ⟨?_, ?_⟩
        · exact e
        · cases hmx : mapResult f xs with
          | error e2 => simp only [mapResult]; rw [hf, hmx]
          | ok bs => simp only [mapResult]; rw [hf, hmx]
      · cases hfx : f x with
        | error e2 =>
            refine ⟨e2, ?_⟩
            cases hmx : mapResult f xs with
            | error e3 => simp only [mapResult]; rw [hfx, hmx]
            | ok bs => simp only [mapResult]; rw [hfx, hmx]
        | ok b =>
            obtain ⟨msg, hmsg⟩ := ih hxs
            exact ⟨msg, by simp only [mapResult]; rw [hfx, hmsg]⟩

/-- The invalid-state error produced when a setter targets a node whose kind
has already been assigned. -/
def invalidStateMsg : String := "SetNode: cannot modify a node that has already been given a kind"

/-- Success of the shared setter core: the target node must exist in the
`unset` state and every referenced child key must already exist. -/
theorem setNodeKind_ok (tb : TreeBuilderState) (k : Int) (children : List Int) (s : NodeState) :
    (setNodeKind tb k children s).isOk = true ↔
      lookupNode tb.nodes k = some NodeState.unset ∧
        children.all (fun c => hasNode tb.nodes c) = true := by
  unfold setNodeKind
  cases h : lookupNode tb.nodes k with
  | none => simp [Except.isOk, Except.toBool]
  | some st =>
      cases st with
      | unset =>
          by_cases hc : children.all (fun c => hasNode tb.nodes c) = true
          · simp [hc, Except.isOk, Except.toBool]
          · simp [hc, Except.isOk, Except.toBool]
      | leaf v => simp [Except.isOk, Except.toBool]
      | leafVector vs => simp [Except.isOk, Except.toBool]
      | numericalTest fid op th dl l r => simp [Except.isOk, Except.toBool]
      | categoricalTest fid cats dl l r => simp [Except.isOk, Except.toBool]

/-- A setter aimed at an already-typed node fails with the invalid-state
error (and, the call being pure, leaves the tree untouched). -/
theorem setNodeKind_invalid (tb : TreeBuilderState) (k : Int) (children : List Int)
    (s st : NodeState) (h : lookupNode tb.nodes k = some st) (hst : st ≠ NodeState.unset) :
    setNodeKind tb k children s = .error invalidStateMsg := by
  unfold setNodeKind
  rw [h]
  cases st with
  | unset => exact absurd rfl hst
  | leaf v => rfl
  | leafVector vs => rfl
  | numericalTest fid op th dl l r => rfl
  | categoricalTest fid cats dl l r => rfl

/-- Claim C3: each of the four node setters succeeds exactly when the target
node is currently `unset` (and declared) and every referenced child key
already exists in the tree at call time; on a node whose kind is already
assigned, every setter fails with the invalid-state error, so the node is
never overwritten (the failing call returns no new tree state). -/
theorem claim3_set_node_state_machine (tb : TreeBuilderState) (k : Int) (fid : Nat)
    (op : Operator) (th : ℚ) (cats : List Nat) (dl : Bool) (lc rc : Int) (v : ℚ)
    (vs : List ℚ) :
    ((SetNumericalTestNode tb k fid op th dl lc rc).isOk = true ↔
        lookupNode tb.nodes k = some NodeState.unset ∧
          hasNode tb.nodes lc = true ∧ hasNode tb.nodes rc = true) ∧
    ((SetCategoricalTestNode tb k fid cats dl lc rc).isOk = true ↔
        lookupNode tb.nodes k = some NodeState.unset ∧
          hasNode tb.nodes lc = true ∧ hasNode tb.nodes rc = true) ∧
    ((SetLeafNode tb k v).isOk = true ↔ lookupNode tb.nodes k = some NodeState.unset) ∧
    ((SetLeafVectorNode tb k vs).isOk = true ↔
        lookupNode tb.nodes k = some NodeState.unset) ∧
    (∀ st, lookupNode tb.nodes k = some st → st ≠ NodeState.unset →
        SetNumericalTestNode tb k fid op th dl lc rc = .error invalidStateMsg ∧
        SetCategoricalTestNode tb k fid cats dl lc rc = .error invalidStateMsg ∧
        SetLeafNode tb k v = .error invalidStateMsg ∧
        SetLeafVectorNode tb k vs = .error invalidStateMsg) := by
  refine ⟨?_, ?_, ?_, ?_, ?_⟩
  · rw [SetNumericalTestNode, setNodeKind_ok]
    simp [List.all_cons]
  · rw [SetCategoricalTestNode, setNodeKind_ok]
    simp [List.all_cons]
  · rw [SetLeafNode, setNodeKind_ok]
    simp
  · rw [SetLeafVectorNode, setNodeKind_ok]
    simp
  · intro st hst hne
    exact ⟨setNodeKind_invalid tb k _ _ st hst hne, setNodeKind_invalid tb k _ _ st hst hne,
      setNodeKind_invalid tb k _ _ st hst hne, setNodeKind_invalid tb k _ _ st hst hne⟩

def claim3TreeW : TreeBuilderState :=
  ⟨[(0, NodeState.leaf 7), (1, NodeState.unset), (2, NodeState.unset)], some 0⟩

/-- Concrete instantiation of claim C3 on a three-node tree whose node `0` is
already a leaf: every setter aimed at node `0` fails with the invalid-state
error, while `SetLeafNode` on the `unset` node `1` succeeds. -/
theorem claim3_witness :
    SetNumericalTestNode claim3TreeW 0 0 Operator.lt 5 true 1 2 = .error invalidStateMsg ∧
    SetCategoricalTestNode claim3TreeW 0 0 [1, 3] false 1 2 = .error invalidStateMsg ∧
    SetLeafNode claim3TreeW 0 9 = .error invalidStateMsg ∧
    SetLeafVectorNode claim3TreeW 0 [1, 2] = .error invalidStateMsg ∧
    (SetLeafNode claim3TreeW 1 9).isOk = true := by
  have h := claim3_set_node_state_machine claim3TreeW 0 0 Operator.lt 5 [1, 3] true 1 2 9 [1, 2]
  have h5 := h.2.2.2.2 (NodeState.leaf 7) (by decide) (by decide)
  have h2 := claim3_set_node_state_machine claim3TreeW 1 0 Operator.lt 5 [1, 3] true 1 2 9 [1, 2]
  exact ⟨h5.1, h5.2.1, h5.2.2.1, h5.2.2.2, h2.2.2.1.mpr (by decide)⟩

/-- Inserting at a position within bounds places the element there. -/
theorem insertAt_get? (l : List α) (i : Nat) (a : α) (h : i ≤ l.length) :
    (insertAt l i a).get? i = some a := by
  induction l generalizing i with
  | nil =>
      have : i = 0 := Nat.le_zero.mp h
      subst this
      rfl
  | cons x xs ih =>
      cases i with
      | zero => rfl
      | succ j =>
          show (x :: insertAt xs j a).get? (j + 1) = some a
          rw [List.get?_cons_succ]
          exact ih j (Nat.le_of_succ_le_succ h)

/-- Claim C4: for a `ModelBuilder` holding `n` trees and a live (usable)
`TreeBuilder` handle, `InsertTree` fails exactly when the index is outside
the insertion range `[0, n]` (`-1` meaning append at the end); on success it
places the tree at the returned position, the returned position is the index
(or `n` for an append), and the passed handle comes back unusable — a fresh
handle must be re-acquired through `GetTree`, which hands back the stored
tree.  A dangling handle is rejected outright. -/
theorem claim4_insert_tree (mb : ModelBuilderState) (tb : TreeBuilderState) (index : Int) :
    ((InsertTree mb ⟨some tb⟩ index).isOk = true ↔
        index = -1 ∨ (0 ≤ index ∧ index ≤ (mb.trees.length : Int))) ∧
    (∀ mb2 h2 pos, InsertTree mb ⟨some tb⟩ index = .ok (mb2, h2, pos) →
        pos = (if index = -1 then mb.trees.length else index.toNat) ∧
        mb2.trees.get? pos = some tb ∧
        h2.usable = false) ∧
    ((InsertTree mb ⟨none⟩ index).isOk = false) ∧
    (∀ i tbi, mb.trees.get? i = some tbi → GetTree mb i = .ok ⟨some tbi⟩) := by
  refine ⟨?_, ?_, ?_, ?_⟩
  · unfold InsertTree
    by_cases h1 : index = -1
    · simp [h1, Except.isOk, Except.toBool]
    · by_cases h2 : 0 ≤ index ∧ index ≤ (mb.trees.length : Int)
      · simp [h1, h2, Except.isOk, Except.toBool]
      · simp [h1, h2, Except.isOk, Except.toBool]
  · intro mb2 h2 pos hok
    unfold InsertTree at hok
    dsimp only at hok
    by_cases h1 : index = -1
    · rw [if_pos h1] at hok
      simp only [Except.ok.injEq, Prod.mk.injEq] at hok
      obtain ⟨hmb, hh, hpos⟩ := hok
      refine ⟨by rw [if_pos h1, ← hpos], ?_, by rw [← hh]; rfl⟩
      rw [← hmb, ← hpos]
      exact List.get?_concat_length mb.trees tb
    · rw [if_neg h1] at hok
      by_cases hr : 0 ≤ index ∧ index ≤ (mb.trees.length : Int)
      · rw [if_pos hr] at hok
        simp only [Except.ok.injEq, Prod.mk.injEq] at hok
        obtain ⟨hmb, hh, hpos⟩ := hok
        refine ⟨by rw [if_neg h1, ← hpos], ?_, by rw [← hh]; rfl⟩
        rw [← hmb, ← hpos]
        exact insertAt_get? mb.trees index.toNat tb (by omega)
      · rw [if_neg hr] at hok
        exact Except.noConfusion hok
  · rfl
  · intro i tbi hi
    unfold GetTree
    rw [hi]

def claim4TreeInW : TreeBuilderState := ⟨[(0, NodeState.leaf 1)], some 0⟩

def claim4TreeW : TreeBuilderState := ⟨[(0, NodeState.leaf 2)], some 0⟩

def claim4BuilderW : ModelBuilderState := ⟨2, 1, false, [claim4TreeInW]⟩

def claim4AfterW : ModelBuilderState := ⟨2, 1, false, [claim4TreeInW, claim4TreeW]⟩

/-- Concrete instantiation of claim C4: appending with index `-1` to a
one-tree ensemble succeeds and yields position `1` with that tree stored
there and the passed handle dangling; inserting through an already-dangling
handle fails; `GetTree` re-acquires the stored tree. -/
theorem claim4_witness :
    (InsertTree claim4BuilderW ⟨some claim4TreeW⟩ (-1)).isOk = true ∧
    claim4AfterW.trees.get? 1 = some claim4TreeW ∧
    TreeBuilderHandle.usable ⟨none⟩ = false ∧
    (InsertTree claim4BuilderW ⟨none⟩ (-1)).isOk = false ∧
    GetTree claim4BuilderW 0 = .ok ⟨some claim4TreeInW⟩ := by
  have h := claim4_insert_tree claim4BuilderW claim4TreeW (-1)
  have hres := h.2.1 claim4AfterW ⟨none⟩ 1 rfl
  exact ⟨h.1.mpr (Or.inl rfl), hres.2.1, hres.2.2, h.2.2.1, h.2.2.2 0 claim4TreeInW rfl⟩

/-- The structural defects that must make `CommitModel` fail: a surviving
`unset` node, a feature id outside `[0, num_feature)` on either test kind, a
leaf vector whose length differs from `num_class`, a cycle reachable from the
root, or a declared node unreachable from the root. -/
def TreeViolation (tb : TreeBuilderState) (nf nc : Nat) : Prop :=
  (∃ p ∈ tb.nodes, p.2 = NodeState.unset) ∨
  (∃ p ∈ tb.nodes, ∃ fid op th dl l r,
      p.2 = NodeState.numericalTest fid op th dl l r ∧ nf ≤ fid) ∨
  (∃ p ∈ tb.nodes, ∃ fid cats dl l r,
      p.2 = NodeState.categoricalTest fid cats dl l r ∧ nf ≤ fid) ∨
  (∃ p ∈ tb.nodes, ∃ vs, p.2 = NodeState.leafVector vs ∧ vs.length ≠ nc) ∨
  (∃ r, tb.root = some r ∧ pathOfLen tb.nodes tb.nodes.length r = true) ∨
  (∃ vs, reachableKeys tb = some vs ∧ ∃ p ∈ tb.nodes, ¬ vs.contains p.1) 

/-- Any of the listed structural defects makes per-tree validation fail. -/
theorem violation_invalid (tb : TreeBuilderState) (nf nc : Nat)
    (hv : TreeViolation tb nf nc) : validTree tb nf nc = false := by
  cases hroot : tb.root with
  | none => simp [validTree, hroot]
  | some r =>
      cases hreach : reach tb.nodes (2 * tb.nodes.length + 2) [] [r] with
      | none => simp [validTree, hroot, hreach]
      | some visited =>
          simp only [validTree, hroot, hreach]
          have hnode : (∃ p ∈ tb.nodes, nodeOk nf nc p.2 = false) →
              tb.nodes.all (fun p => nodeOk nf nc p.2) = false := by
            intro ⟨p, hp, hbad⟩
            exact List.all_eq_false.mpr ⟨p, hp, by rw [hbad]; exact Bool.false_ne_true⟩
          rcases hv with h | h | h | h | h | h
          · obtain ⟨p, hp, hu⟩ := h
            simp [hnode ⟨p, hp, by rw [hu]; rfl⟩]
          · obtain ⟨p, hp, fid, op, th, dl, l, r2, heq, hge⟩ := h
            simp [hnode ⟨p, hp, by rw [heq]; simp [nodeOk]; omega⟩]
          · obtain ⟨p, hp, fid, cats, dl, l, r2, heq, hge⟩ := h
            simp [hnode ⟨p, hp, by rw [heq]; simp [nodeOk]; omega⟩]
          · obtain ⟨p, hp, vs, heq, hne⟩ := h
            simp [hnode ⟨p, hp, by rw [heq]; simp [nodeOk]; omega⟩]
          · obtain ⟨r2, hr2, hcyc⟩ := h
            rw [hroot] at hr2
            injection hr2 with hr2
            subst hr2
            simp [hcyc]
          · obtain ⟨vs, hvs, p, hp, hnc⟩ := h
            simp only [reachableKeys, hroot] at hvs
            rw [hreach] at hvs
            injection hvs with hvs
            subst hvs
            have hall : tb.nodes.all (fun q => visited.contains q.1) = false :=
              List.all_eq_false.mpr ⟨p, hp, by simpa using hnc⟩
            rw [hall, Bool.and_false, Bool.false_and]

/-- Claim C5: `CommitModel` fails whenever any contained tree has a
structural defect — a reachable cycle, a declared node unreachable from the
root, a surviving `unset` node, a feature id outside `[0, num_feature)`, or a
leaf vector whose length differs from `num_class` — and the failure is
atomic: an error is returned and no model (partial or otherwise) is produced
(the builder, being passed by value, is untouched). -/
theorem claim5_commit_rejects_invalid (mb : ModelBuilderState) (tb : TreeBuilderState)
    (hmem : tb ∈ mb.trees) (hv : TreeViolation tb mb.num_feature mb.num_class) :
    ∃ msg, CommitModel mb = .error msg := by
  have hvt : validTree tb mb.num_feature mb.num_class = false := violation_invalid _ _ _ hv
  have hct : commitTree tb mb.num_feature mb.num_class =
      .error ("CommitModel: tree validation failed") := by
    unfold commitTree
    rw [hvt]
    rfl
  obtain ⟨msg, hmsg⟩ := mapResult_error_of_mem
    (fun tb2 => commitTree tb2 mb.num_feature mb.num_class) mb.trees tb hmem _ hct
  refine ⟨msg, ?_⟩
  unfold CommitModel
  rw [hmsg]

def claim5TreeW : TreeBuilderState := ⟨[(0, NodeState.leafVector [1, 2])], some 0⟩

def claim5BuilderW : ModelBuilderState := ⟨2, 3, true, [claim5TreeW]⟩

/-- Concrete instantiation of claim C5: a builder with `num_class = 3` whose
single tree is a leaf-vector node of length 2 fails to commit. -/
theorem claim5_witness : ∃ msg, CommitModel claim5BuilderW = .error msg := by
  apply claim5_commit_rejects_invalid claim5BuilderW claim5TreeW (by decide)
  exact Or.inr (Or.inr (Or.inr (Or.inl
    ⟨(0, NodeState.leafVector [1, 2]), by decide, [1, 2], rfl, by decide⟩)))

/-- Structural correspondence of a built node and a committed node under the
key-renumbering map `pi`: same kind, same operator/threshold/categories/
default direction/leaf values, and child keys translated through `pi`. -/
def NodeCorresponds (pi : Int → Option Nat) : NodeState → CNode → Prop
  | NodeState.leaf v, CNode.leaf w => w = v
  | NodeState.leafVector vs, CNode.leafVector ws => ws = vs
  | NodeState.numericalTest fid op th dl l r, CNode.numericalTest fid2 op2 th2 dl2 li ri =>
      fid2 = fid ∧ op2 = op ∧ th2 = th ∧ dl2 = dl ∧ pi l = some li ∧ pi r = some ri
  | NodeState.categoricalTest fid cats dl l r, CNode.categoricalTest fid2 cats2 dl2 li ri =>
      fid2 = fid ∧ cats2 = cats ∧ dl2 = dl ∧ pi l = some li ∧ pi r = some ri
  | _, _ => False

/-- A successful `convertNode` produces a structurally corresponding node. -/
theorem convertNode_corresponds (nodes : NodeMap) (s : NodeState) (c : CNode)
    (h : convertNode nodes s = some c) : NodeCorresponds (keyIndex nodes) s c := by
  cases s with
  | unset => exact Option.noConfusion h
  | leaf v =>
      simp only [convertNode, Option.some.injEq] at h
      subst h
      exact rfl
  | leafVector vs =>
      simp only [convertNode, Option.some.injEq] at h
      subst h
      exact rfl
  | numericalTest fid op th dl l r =>
      simp only [convertNode] at h
      cases hl : keyIndex nodes l with
      | none => rw [hl] at h; exact Option.noConfusion h
      | some li =>
          cases hr : keyIndex nodes r with
          | none => rw [hl, hr] at h; exact Option.noConfusion h
          | some ri =>
              rw [hl, hr] at h
              simp only [Option.some.injEq] at h
              subst h
              exact ⟨rfl, rfl, rfl, rfl, hl, hr⟩
  | categoricalTest fid cats dl l r =>
      simp only [convertNode] at h
      cases hl : keyIndex nodes l with
      | none => rw [hl] at h; exact Option.noConfusion h
      | some li =>
          cases hr : keyIndex nodes r with
          | none => rw [hl, hr] at h; exact Option.noConfusion h
          | some ri =>
              rw [hl, hr] at h
              simp only [Option.some.injEq] at h
              subst h
              exact ⟨rfl, rfl, rfl, hl, hr⟩

/-- Structural equivalence of a built tree and a committed tree: the root is
the renumbered declared root, node counts agree, and the committed node at
the compact index assigned to each declared key corresponds, field by field,
to the node state supplied during building. -/
def TreeEquiv (tb : TreeBuilderState) (ct : CTree) : Prop :=
  (∃ r, tb.root = some r ∧ keyIndex tb.nodes r = some ct.root) ∧
  ct.nodes.length = tb.nodes.length ∧
  ∀ i p, tb.nodes.get? i = some p →
    ∃ c, ct.nodes.get? i = some c ∧ NodeCorresponds (keyIndex tb.nodes) p.2 c

/-- A successful renumbering pass yields a structurally equivalent tree. -/
theorem renumberTree_equiv (tb : TreeBuilderState) (ct : CTree)
    (h : renumberTree tb = some ct) : TreeEquiv tb ct := by
  cases hroot : tb.root with
  | none =>
      simp only [renumberTree, hroot] at h
      exact Option.noConfusion h
  | some r =>
      simp only [renumberTree, hroot] at h
      cases hki : keyIndex tb.nodes r with
      | none =>
          cases hmo : mapOption (fun p => convertNode tb.nodes p.2) tb.nodes <;>
            rw [hki, hmo] at h <;> exact Option.noConfusion h
      | some ri =>
          cases hmo : mapOption (fun p => convertNode tb.nodes p.2) tb.nodes with
          | none => rw [hki, hmo] at h; exact Option.noConfusion h
          | some ns =>
              rw [hki, hmo] at h
              simp only [Option.some.injEq] at h
              subst h
              obtain ⟨hlen, hget⟩ := mapOption_get? _ _ _ hmo
              refine ⟨⟨r, hroot, hki⟩, hlen, ?_⟩
              intro i p hp
              obtain ⟨c, hc, hconv⟩ := hget i p hp
              exact ⟨c, hc, convertNode_corresponds tb.nodes p.2 c hconv⟩

/-- A successful per-tree commit yields a structurally equivalent tree. -/
theorem commitTree_equiv (tb : TreeBuilderState) (nf nc : Nat) (ct : CTree)
    (h : commitTree tb nf nc = .ok ct) : TreeEquiv tb ct := by
  unfold commitTree at h
  by_cases hv : validTree tb nf nc = true
  · rw [if_pos hv] at h
    cases hr : renumberTree tb with
    | none => rw [hr] at h; exact Except.noConfusion h
    | some ct2 =>
        rw [hr] at h
        simp only [Except.ok.injEq] at h
        subst h
        exact renumberTree_equiv tb ct2 hr
  · rw [if_neg hv] at h
    exact Except.noConfusion h

/-- Claim C8: every model produced by a successful `CommitModel` reproduces,
tree for tree and node for node, the kinds and fields supplied during
building — operators, thresholds, child links, leaf values, default
directions — up to the commit-time renumbering of node keys (`keyIndex`),
i.e. structural equivalence rather than key equality. -/
theorem claim8_commit_roundtrip (mb : ModelBuilderState) (model : Model)
    (h : CommitModel mb = .ok model) :
    model.trees.length = mb.trees.length ∧
    ∀ j tb, mb.trees.get? j = some tb →
      ∃ ct, model.trees.get? j = some ct ∧ TreeEquiv tb ct := by
  unfold CommitModel at h
  cases hm : mapResult (fun tb => commitTree tb mb.num_feature mb.num_class) mb.trees with
  | error e => rw [hm] at h; exact Except.noConfusion h
  | ok ts =>
      rw [hm] at h
      simp only [Except.ok.injEq] at h
      subst h
      obtain ⟨hlen, hget⟩ := mapResult_get? _ _ _ hm
      refine ⟨hlen, ?_⟩
      intro j tb htb
      obtain ⟨ct, hct, hcommit⟩ := hget j tb htb
      exact ⟨ct, hct, commitTree_equiv tb mb.num_feature mb.num_class ct hcommit⟩

def claim8TreeW : TreeBuilderState :=
  ⟨[(5, NodeState.numericalTest 0 Operator.lt (5 / 2) true 10 20),
    (10, NodeState.leaf 1),
    (20, NodeState.leaf 2)], some 5⟩

def claim8BuilderW : ModelBuilderState := ⟨1, 1, false, [claim8TreeW]⟩

def claim8ModelW : Model :=
  ⟨1, 1, false,
   [⟨0, [CNode.numericalTest 0 Operator.lt (5 / 2) true 1 2, CNode.leaf 1, CNode.leaf 2]⟩]⟩

/-- Concrete instantiation of claim C8: a three-node tree built under keys
`5, 10, 20` commits to the model with compact indices `0, 1, 2`, and the
committed tree is structurally equivalent to the built one. -/
theorem claim8_witness :
    claim8ModelW.trees.length = claim8BuilderW.trees.length ∧
    (∃ ct, claim8ModelW.trees.get? 0 = some ct ∧ TreeEquiv claim8TreeW ct) := by
  have h := claim8_commit_roundtrip claim8BuilderW claim8ModelW rfl
  exact ⟨h.1, h.2 0 claim8TreeW rfl⟩

/-- Modelled from the spec: a parallel execution of one GTIL predict call.
A schedule is a list of per-worker chunks of row indices, processed in an
arbitrary order; each write stores the row's prediction — a value that
depends only on the model and that row — into the row's own output cell. -/
def runSchedule (m : Model) (rows : List Row) (sched : List (List Nat)) :
    List (Option (Option (List ℚ))) :=
  runCells (fun i => predictRow m (rows.getD i (fun _ => none)))
    (List.replicate rows.length none) sched

/-- Claim C9: for a fixed model, input batch and configuration, the
prediction output is a deterministic function of the inputs — any two
schedules (any thread count, any interleaving) that cover every row produce
identical buffers, both equal to the sequential row-by-row result in
ensemble insertion order.  The same statement covers `PredictSparse`, whose
row list is the CSR view `(List.range num_row).map (csrRow x)` by the
definition of `predictSparseBatch`. -/
theorem claim9_predict_deterministic (m : Model) (rows : List Row)
    (s1 s2 : List (List Nat))
    (h1 : ∀ i, i < rows.length → ∃ c ∈ s1, i ∈ c)
    (h2 : ∀ i, i < rows.length → ∃ c ∈ s2, i ∈ c) :
    runSchedule m rows s1 = runSchedule m rows s2 ∧
    runSchedule m rows s1 = (predictBatch m rows).map some := by
  have e1 := runCells_complete (fun i => predictRow m (rows.getD i (fun _ => none)))
    rows.length s1 h1
  have e2 := runCells_complete (fun i => predictRow m (rows.getD i (fun _ => none)))
    rows.length s2 h2
  have ebatch : (predictBatch m rows).map some =
      (List.range rows.length).map
        (fun i => some (predictRow m (rows.getD i (fun _ => none)))) := by
    unfold predictBatch
    rw [List.map_map]
    exact map_eq_range_map_getD (fun r => some (predictRow m r)) (fun _ => none) rows
  refine ⟨?_, ?_⟩
  · unfold runSchedule
    rw [e1, e2]
  · unfold runSchedule
    rw [e1, ebatch]

def claim9ModelW : Model := ⟨1, 1, false, [⟨0, [CNode.leaf 3]⟩]⟩

def claim9RowsW : List Row := [fun _ => some 1, fun _ => none]

/-- Concrete instantiation of claim C9: on a two-row batch, the schedule
that runs rows `0` then `1` on one worker and the schedule that runs them
in opposite order on two workers produce the same buffer, equal to the
sequential prediction. -/
theorem claim9_witness :
    runSchedule claim9ModelW claim9RowsW [[0, 1]] =
      runSchedule claim9ModelW claim9RowsW [[1], [0]] ∧
    runSchedule claim9ModelW claim9RowsW [[0, 1]] =
      (predictBatch claim9ModelW claim9RowsW).map some := by
  have h := claim9_predict_deterministic claim9ModelW claim9RowsW [[0, 1]] [[1], [0]]
    (by decide) (by decide)
  exact h

/-- Claim C6: per row, the prediction engine aggregates the per-tree leaf
contributions by summation when `average_tree_output = false` and by
arithmetic mean when it is `true` (per class component in general); in
particular, for a two-tree ensemble whose trees reach leaves `a` and `b` on
a given row, the raw output is `a + b` without averaging and `(a + b) / 2`
with it. -/
theorem claim6_sum_vs_average (t1 t2 : CTree) (row : Row) (a b : ℚ) (nf : Nat)
    (h1 : evalTree t1 row = some [a]) (h2 : evalTree t2 row = some [b]) :
    predictRow ⟨nf, 1, false, [t1, t2]⟩ row = some [a + b] ∧
    predictRow ⟨nf, 1, true, [t1, t2]⟩ row = some [(a + b) / 2] ∧
    (∀ (m : Model) (r : Row) (cs : List (List ℚ)),
        mapOption (fun t => evalTree t r) m.trees = some cs →
        predictRow m r = some (if m.average_tree_output
          then (vecSum m.num_class cs).map (· / (m.trees.length : ℚ))
          else vecSum m.num_class cs)) := by
  have hmap : mapOption (fun t => evalTree t row) [t1, t2] = some [[a], [b]] := by
    simp only [mapOption, h1, h2]
  refine ⟨?_, ?_, ?_⟩
  · simp only [predictRow, hmap]
    simp [vecSum]
  · simp only [predictRow, hmap]
    simp [vecSum]
  · intro m r cs hm
    simp only [predictRow, hm]

def claim6Tree1W : CTree := ⟨0, [CNode.leaf 3]⟩

def claim6Tree2W : CTree := ⟨0, [CNode.leaf 5]⟩

def claim6RowW : Row := fun _ => none

/-- Concrete instantiation of claim C6: leaves `3.0` and `5.0` give a raw
row output of `8.0` when summing and `4.0` when averaging. -/
theorem claim6_witness :
    predictRow ⟨1, 1, false, [claim6Tree1W, claim6Tree2W]⟩ claim6RowW = some [8] ∧
    predictRow ⟨1, 1, true, [claim6Tree1W, claim6Tree2W]⟩ claim6RowW = some [4] := by
  have h := claim6_sum_vs_average claim6Tree1W claim6Tree2W claim6RowW 3 5 1 rfl rfl
  refine ⟨?_, ?_⟩
  · rw [h.1]
    norm_num
  · rw [h.2.1]
    norm_num

/-- Claim C7: at a `CategoricalTest` node the traversal branches per
`default_left` when the row's feature value is absent; otherwise it tests
membership of the truncated-to-integer feature value in `left_categories`,
going left on membership and right otherwise.  With
`left_categories = [1, 3]` and `default_left = false`, feature value `2`
routes right, `1` routes left, and a missing value routes right. -/
theorem claim7_categorical_routing (nodes : List CNode) (row : Row) (fuel idx : Nat)
    (fid : Nat) (cats : List Nat) (dl : Bool) (lc rc : Nat)
    (h : nodes.get? idx = some (CNode.categoricalTest fid cats dl lc rc)) :
    (evalTreeFrom nodes row (fuel + 1) idx =
      evalTreeFrom nodes row fuel
        (match row fid with
         | none => if dl then lc else rc
         | some v => if cats.any (fun c => (c : Int) = ratTrunc v) then lc else rc)) ∧
    catRoute [1, 3] false (some 2) = false ∧
    catRoute [1, 3] false (some 1) = true ∧
    catRoute [1, 3] false none = false := by
  refine ⟨?_, by decide, by decide, rfl⟩
  simp only [evalTreeFrom, h]
  cases hv : row fid with
  | none => simp [catRoute]
  | some v => simp [catRoute]

def claim7TreeW : CTree :=
  ⟨0, [CNode.categoricalTest 0 [1, 3] false 1 2, CNode.leaf 100, CNode.leaf 200]⟩

/-- Concrete instantiation of claim C7 on a tree whose root is a categorical
test with `left_categories = [1, 3]` and `default_left = false`: feature
value `2` reaches the right leaf (`200`), value `1` the left leaf (`100`),
and a missing value the right leaf (`200`). -/
theorem claim7_witness :
    evalTreeFrom claim7TreeW.nodes (fun _ => some 2) 3 0 =
      evalTreeFrom claim7TreeW.nodes (fun _ => some 2) 2 2 ∧
    evalTree claim7TreeW (fun _ => some 2) = some [200] ∧
    evalTree claim7TreeW (fun _ => some 1) = some [100] ∧
    evalTree claim7TreeW (fun _ => none) = some [200] := by
  have h := claim7_categorical_routing claim7TreeW.nodes (fun _ => some 2) 2 0 0 [1, 3]
    false 1 2 rfl
  exact ⟨h.1, rfl, rfl, rfl⟩

/-- Claim C2: `GetOutputShape` computes the output shape from the model's
metadata, the configuration and `num_row` alone — its signature takes no
input data at all — and for ordinary prediction the shape is
`[num_row, num_class]`: with `num_row = 10` it describes exactly `10` scalar
outputs when `num_class = 1` and `10 × 4 = 40` outputs for a 4-class model. -/
theorem claim2_output_shape (m : Model) (num_row : Nat) (nt : Int) (pt : Bool) :
    GetOutputShape m num_row ⟨nt, pt, PredKind.predictDefault⟩ = [num_row, m.num_class] ∧
    shapeCount (GetOutputShape m num_row ⟨nt, pt, PredKind.predictDefault⟩) =
      num_row * m.num_class ∧
    (m.num_class = 1 →
      shapeCount (GetOutputShape m 10 ⟨nt, pt, PredKind.predictDefault⟩) = 10) ∧
    (m.num_class = 4 →
      shapeCount (GetOutputShape m 10 ⟨nt, pt, PredKind.predictDefault⟩) = 40) := by
  refine ⟨rfl, ?_, ?_, ?_⟩
  · show shapeCount [num_row, m.num_class] = num_row * m.num_class
    simp [shapeCount]
  · intro h1
    show shapeCount [10, m.num_class] = 10
    rw [h1]
    decide
  · intro h4
    show shapeCount [10, m.num_class] = 40
    rw [h4]
    decide

def claim2BinModelW : Model := ⟨3, 1, false, []⟩

def claim2MultiModelW : Model := ⟨3, 4, false, []⟩

/-- Concrete instantiation of claim C2: 10 outputs for the binary model,
40 for the 4-class model, at `num_row = 10`. -/
theorem claim2_witness :
    shapeCount (GetOutputShape claim2BinModelW 10 ⟨0, true, PredKind.predictDefault⟩) = 10 ∧
    shapeCount (GetOutputShape claim2MultiModelW 10 ⟨0, true, PredKind.predictDefault⟩) = 40 := by
  exact ⟨(claim2_output_shape claim2BinModelW 10 0 true).2.2.1 rfl,
    (claim2_output_shape claim2MultiModelW 10 0 true).2.2.2 rfl⟩

/-- Claim C1: `TreeliteGTILPredict` and `TreeliteGTILPredictSparse` dispatch
on the element-type tag: any tag outside the closed set
`"float32"`, `"float64"` raises a fatal error before any prediction is
performed (the call returns the error code with nothing written), while each
member tag dispatches to the prediction engine specialised to that element
type, as recorded by the `ElemType` component of the result. -/
theorem claim1_type_dispatch (m : Model) (input : List Row) (x : CSRMatrix)
    (num_row : Nat) (c : Configuration) (s : String)
    (hs1 : s ≠ "float32") (hs2 : s ≠ "float64") :
    TreeliteGTILPredict m input s c = (-1, none) ∧
    TreeliteGTILPredictSparse m x s num_row c = (-1, none) ∧
    TreeliteGTILPredict m input ("float32") c =
      (0, some (ElemType.float32, predictBatch m input)) ∧
    TreeliteGTILPredict m input ("float64") c =
      (0, some (ElemType.float64, predictBatch m input)) ∧
    TreeliteGTILPredictSparse m x ("float32") num_row c =
      (0, some (ElemType.float32, predictSparseBatch m x num_row)) ∧
    TreeliteGTILPredictSparse m x ("float64") num_row c =
      (0, some (ElemType.float64, predictSparseBatch m x num_row)) := by
  refine ⟨?_, ?_, rfl, rfl, rfl, rfl⟩
  · simp [TreeliteGTILPredict, apiWrap, hs1, hs2]
  · simp [TreeliteGTILPredictSparse, apiWrap, hs1, hs2]

def claim1ModelW : Model := ⟨1, 1, false, [⟨0, [CNode.leaf 3]⟩]⟩

def claim1RowsW : List Row := [fun _ => some 1]

def claim1CSRW : CSRMatrix := ⟨[], [], [0, 0]⟩

def claim1ConfigW : Configuration := ⟨0, true, PredKind.predictDefault⟩

/-- Concrete instantiation of claim C1: the tag `"int32"` is rejected with
the error status and no output, while `"float32"` runs the
float32-specialised engine. -/
theorem claim1_witness :
    TreeliteGTILPredict claim1ModelW claim1RowsW ("int32") claim1ConfigW = (-1, none) ∧
    TreeliteGTILPredictSparse claim1ModelW claim1CSRW ("int32") 1 claim1ConfigW =
      (-1, none) ∧
    TreeliteGTILPredict claim1ModelW claim1RowsW ("float32") claim1ConfigW =
      (0, some (ElemType.float32, predictBatch claim1ModelW claim1RowsW)) := by
  have h := claim1_type_dispatch claim1ModelW claim1RowsW claim1CSRW 1 claim1ConfigW
    ("int32") (by decide) (by decide)
  exact ⟨h.1, h.2.1, h.2.2.1⟩

/-- Claim C10: every GTIL C-API entry point reports success or failure only
through its integer return status — the `API_BEGIN`/`API_END` wrapper
(`apiWrap`) converts any internal error, configuration parse errors and
unsupported type tags included, into the nonzero code `-1`, and, the
embedding being a total function, no exception crosses the boundary — and
the out-parameter is written (`isSome`) exactly on the success path. -/
theorem claim10_capi_status (parse : String → Except String Configuration) (s : String)
    (m : Model) (input : List Row) (x : CSRMatrix) (num_row : Nat) (c : Configuration)
    (t : String) :
    ((TreeliteGTILParseConfig parse s).1 = 0 ↔ (parse s).isOk = true) ∧
    ((TreeliteGTILParseConfig parse s).2.isSome = true ↔
      (TreeliteGTILParseConfig parse s).1 = 0) ∧
    TreeliteGTILDeleteConfig.1 = 0 ∧
    ((TreeliteGTILGetOutputShape m num_row c).1 = 0 ∧
      (TreeliteGTILGetOutputShape m num_row c).2.isSome = true) ∧
    ((TreeliteGTILPredict m input t c).1 = 0 ↔ (t = "float32" ∨ t = "float64")) ∧
    ((TreeliteGTILPredict m input t c).2.isSome = true ↔
      (TreeliteGTILPredict m input t c).1 = 0) ∧
    ((TreeliteGTILPredictSparse m x t num_row c).1 = 0 ↔
      (t = "float32" ∨ t = "float64")) ∧
    ((TreeliteGTILPredictSparse m x t num_row c).2.isSome = true ↔
      (TreeliteGTILPredictSparse m x t num_row c).1 = 0) ∧
    (∀ e, parse s = .error e → TreeliteGTILParseConfig parse s = (-1, none)) := by
  have hwrap : ∀ {α : Type} (r : Except String α),
      ((apiWrap r).1 = 0 ↔ r.isOk = true) ∧
        ((apiWrap r).2.isSome = true ↔ (apiWrap r).1 = 0) := by
    intro α r
    cases r with
    | ok a => simp [apiWrap, Except.isOk, Except.toBool]
    | error e => simp [apiWrap, Except.isOk, Except.toBool]
  refine ⟨(hwrap (parse s)).1, (hwrap (parse s)).2, rfl, ⟨rfl, rfl⟩, ?_, ?_, ?_, ?_, ?_⟩
  · by_cases h1 : t = "float32"
    · simp [TreeliteGTILPredict, apiWrap, h1]
    · by_cases h2 : t = "float64"
      · simp [TreeliteGTILPredict, apiWrap, h1, h2]
      · simp [TreeliteGTILPredict, apiWrap, h1, h2]
  · by_cases h1 : t = "float32"
    · simp [TreeliteGTILPredict, apiWrap, h1]
    · by_cases h2 : t = "float64"
      · simp [TreeliteGTILPredict, apiWrap, h1, h2]
      · simp [TreeliteGTILPredict, apiWrap, h1, h2]
  · by_cases h1 : t = "float32"
    · simp [TreeliteGTILPredictSparse, apiWrap, h1]
    · by_cases h2 : t = "float64"
      · simp [TreeliteGTILPredictSparse, apiWrap, h1, h2]
      · simp [TreeliteGTILPredictSparse, apiWrap, h1, h2]
  · by_cases h1 : t = "float32"
    · simp [TreeliteGTILPredictSparse, apiWrap, h1]
    · by_cases h2 : t = "float64"
      · simp [TreeliteGTILPredictSparse, apiWrap, h1, h2]
      · simp [TreeliteGTILPredictSparse, apiWrap, h1, h2]
  · intro e he
    simp [TreeliteGTILParseConfig, apiWrap, he]

def claim10ParseW : String → Except String Configuration := fun s =>
  if s = "ok" then .ok ⟨0, true, PredKind.predictDefault⟩
  else .error ("Unknown configuration key")

/-- Concrete instantiation of claim C10: a failing parse surfaces as the
status `-1` with the out-parameter unwritten; a succeeding parse returns
status `0` with the out-parameter written. -/
theorem claim10_witness :
    TreeliteGTILParseConfig claim10ParseW ("bad") = (-1, none) ∧
    (TreeliteGTILParseConfig claim10ParseW ("ok")).1 = 0 ∧
    (TreeliteGTILParseConfig claim10ParseW ("ok")).2.isSome = true ∧
    (TreeliteGTILPredict claim1ModelW claim1RowsW ("int64") claim1ConfigW).1 ≠ 0 := by
  have h1 := claim10_capi_status claim10ParseW ("bad") claim1ModelW claim1RowsW claim1CSRW
    1 claim1ConfigW ("int64")
  have h2 := claim10_capi_status claim10ParseW ("ok") claim1ModelW claim1RowsW claim1CSRW
    1 claim1ConfigW ("int64")
  refine ⟨h1.2.2.2.2.2.2.2.2 ("Unknown configuration key") rfl, ?_, ?_, ?_⟩
  · exact h2.1.mpr (by decide)
  · exact h2.2.1.mpr (h2.1.mpr (by decide))
  · intro h0
    have := (h1.2.2.2.2.1).mp h0
    rcases this with hc | hc <;> exact absurd hc (by decide)
